import Mathlib

/-!
Verification of the `std_format_compat.h` formatting shim
(`src/android/app/src/main/cpp/include/std_format_compat.h`).

Strings are embedded as `List Char`.  The C++ two-argument overload first
converts its argument with an `ostringstream`; the resulting text is an
arbitrary string, so the embedding takes that text (`val`) as a parameter.
`std::string::find("\x7b\x7d")` is embedded as `findBrace`, returning the index
of the first occurrence of the two-character token, and
`s.replace(pos, 2, val)` as `take pos ++ val ++ drop (pos + 2)`.
-/

namespace StdFormatCompat

/-- Embedding of `s.find("\x7b\x7d")`: the index of the first position at which
the character `'{'` is immediately followed by `'}'`, or `none` when no such
position exists (`std::string::npos`). -/
def findBrace : List Char → Option Nat
  | c1 :: c2 :: rest =>
    if c1 = '{' ∧ c2 = '}' then some 0
    else (findBrace (c2 :: rest)).map (fun n => n + 1)
  | _ => none

/-- Embedding of the zero-argument overload
`inline std::string format(const char* fmt) { return std::string(fmt); }`:
it returns a copy of the template. -/
def format0 (fmt : List Char) : List Char := fmt

/-- Embedding of the one-argument overload
`template <typename T> inline std::string format(const char* fmt, const T& value)`.
`val` is the text produced by streaming `value` into the `ostringstream`.
If `find` locates the token, `s.replace(pos, 2, val)` is performed,
otherwise `s += val`. -/
def format (fmt val : List Char) : List Char :=
  match findBrace fmt with
  | some pos => fmt.take pos ++ val ++ fmt.drop (pos + 2)
  | none => fmt ++ val

/-- Number of (non-overlapping, leftmost-first) occurrences of the token
`'{'` followed by `'}'` in a string; used to state claims about templates
with several occurrences. -/
def countBrace : List Char → Nat
  | c1 :: c2 :: rest =>
    if c1 = '{' ∧ c2 = '}' then countBrace rest + 1
    else countBrace (c2 :: rest)
  | _ => 0

theorem findBrace_nil : findBrace [] = none := rfl

theorem findBrace_single (c : Char) : findBrace [c] = none := rfl

theorem findBrace_cons_cons (c1 c2 : Char) (rest : List Char) :
    findBrace (c1 :: c2 :: rest) =
      if c1 = '{' ∧ c2 = '}' then some 0
      else (findBrace (c2 :: rest)).map (fun n => n + 1) := rfl

/-- `findBrace` returns `none` exactly when the template has no occurrence of
the two-character token. -/
theorem findBrace_eq_none_iff (t : List Char) :
    findBrace t = none ↔ ∀ A B : List Char, t ≠ A ++ '{' :: '}' :: B := by
  induction t with
  | nil =>
    simp only [findBrace_nil, true_iff]
    intro A B h
    have hl := congrArg List.length h
    simp [List.length_append] at hl
    omega
  | cons c rest ih =>
    cases rest with
    | nil =>
      simp only [findBrace_single, true_iff]
      intro A B h
      have hl := congrArg List.length h
      simp [List.length_append] at hl
      omega
    | cons c2 rest2 =>
      rw [findBrace_cons_cons]
      by_cases hc : c = '{' ∧ c2 = '}'
      · simp only [hc, if_true]
        constructor
        · intro h; exact absurd h (by simp)
        · intro h
          exact absurd (h [] rest2 (by simp [hc.1, hc.2])).elim id
      · simp only [hc, if_false, Option.map_eq_none']
        rw [ih]
        constructor
        · intro h A B hAB
          cases A with
          | nil =>
            simp at hAB
            exact hc ⟨hAB.1, hAB.2.1⟩
          | cons a A2 =>
            simp at hAB
            exact h A2 B hAB.2
        · intro h A B hAB
          exact h (c :: A) B (by simp [hAB])

/-- Scanning `A ++ "\x7b\x7d" ++ B` when `A` has no occurrence of the token
finds the token exactly at index `A.length`. -/
theorem findBrace_append (A B : List Char) (hA : findBrace A = none) :
    findBrace (A ++ '{' :: '}' :: B) = some A.length := by
  induction A with
  | nil => simp [findBrace_cons_cons]
  | cons a A2 ih =>
    cases A2 with
    | nil => simp [List.cons_append, List.nil_append, findBrace_cons_cons]
    | cons a2 A3 =>
      rw [findBrace_cons_cons] at hA
      by_cases hc : a = '{' ∧ a2 = '}'
      · simp [hc] at hA
      · simp only [hc, if_false, Option.map_eq_none'] at hA
        have h2 := ih hA
        simp only [List.cons_append] at h2 ⊢
        rw [findBrace_cons_cons]
        simp only [hc, if_false, h2, Option.map_some]
        simp [List.length_cons]

/-- A found position leaves at least the two token characters inside the
string: `pos + 2 ≤ t.length`. -/
theorem findBrace_le (t : List Char) (pos : Nat) (h : findBrace t = some pos) :
    pos + 2 ≤ t.length := by
  induction t generalizing pos with
  | nil => simp [findBrace_nil] at h
  | cons c rest ih =>
    cases rest with
    | nil => simp [findBrace_single] at h
    | cons c2 rest2 =>
      rw [findBrace_cons_cons] at h
      by_cases hc : c = '{' ∧ c2 = '}'
      · rw [if_pos hc] at h
        injection h with h
        subst h
        simp only [List.length_cons]
        omega
      · rw [if_neg hc] at h
        cases hf : findBrace (c2 :: rest2) with
        | none => rw [hf] at h; simp at h
        | some p2 =>
          rw [hf] at h
          replace h : p2 + 1 = pos := by simpa using h
          have hle := ih p2 hf
          simp only [List.length_cons] at hle ⊢
          omega

/-- The position returned by `findBrace` really is an occurrence of the token,
and it is the first one: the prefix before it has no occurrence. -/
theorem findBrace_spec (t : List Char) (pos : Nat) (h : findBrace t = some pos) :
    t.take pos ++ '{' :: '}' :: t.drop (pos + 2) = t ∧
      findBrace (t.take pos) = none := by
  induction t generalizing pos with
  | nil => simp [findBrace_nil] at h
  | cons c rest ih =>
    cases rest with
    | nil => simp [findBrace_single] at h
    | cons c2 rest2 =>
      rw [findBrace_cons_cons] at h
      by_cases hc : c = '{' ∧ c2 = '}'
      · rw [if_pos hc] at h
        injection h with h
        subst h
        simp [hc.1, hc.2, findBrace_nil]
      · rw [if_neg hc] at h
        cases hf : findBrace (c2 :: rest2) with
        | none => rw [hf] at h; simp at h
        | some p2 =>
          rw [hf] at h
          replace h : p2 + 1 = pos := by simpa using h
          obtain ⟨h1, h2⟩ := ih p2 hf
          subst h
          refine ⟨?_, ?_⟩
          · rw [List.take_succ_cons]
            have hd : (c :: c2 :: rest2).drop (p2 + 1 + 2) =
                (c2 :: rest2).drop (p2 + 2) := by
              have he : p2 + 1 + 2 = (p2 + 2) + 1 := by omega
              rw [he, List.drop_succ_cons]
            rw [hd, List.cons_append]
            exact congrArg (c :: ·) h1
          · rw [List.take_succ_cons]
            cases hp : p2 with
            | zero => simp [List.take, findBrace_single]
            | succ q =>
              rw [hp] at h2
              rw [List.take_succ_cons] at h2 ⊢
              rw [findBrace_cons_cons]
              simp only [hc, if_false]
              rw [h2]
              rfl

theorem countBrace_cons_cons (c1 c2 : Char) (rest : List Char) :
    countBrace (c1 :: c2 :: rest) =
      if c1 = '{' ∧ c2 = '}' then countBrace rest + 1
      else countBrace (c2 :: rest) := rfl

/-- A template in which `find` locates no token contains no occurrence of
the token at all, so `countBrace` is zero. -/
theorem countBrace_eq_zero (t : List Char) (h : findBrace t = none) :
    countBrace t = 0 := by
  induction t with
  | nil => rfl
  | cons c rest ih =>
    cases rest with
    | nil => rfl
    | cons c2 rest2 =>
      rw [findBrace_cons_cons] at h
      by_cases hc : c = '{' ∧ c2 = '}'
      · rw [if_pos hc] at h
        exact absurd h (by simp)
      · rw [if_neg hc] at h
        rw [Option.map_eq_none'] at h
        rw [countBrace_cons_cons, if_neg hc]
        exact ih h

/-- Unfolding of `format` on the branch where `find` succeeds:
`s.replace(pos, 2, val)`. -/
theorem format_found (t v : List Char) (pos : Nat) (h : findBrace t = some pos) :
    format t v = t.take pos ++ v ++ t.drop (pos + 2) := by
  unfold format
  rw [h]

/-- Unfolding of `format` on the branch where `find` fails: `s += val`. -/
theorem format_not_found (t v : List Char) (h : findBrace t = none) :
    format t v = t ++ v := by
  unfold format
  rw [h]

/-- Core substitution lemma: when the prefix `A` contains no token, `format`
on `A ++ "\x7b\x7d" ++ B` replaces exactly that token occurrence. -/
theorem format_split (A B v : List Char) (hA : findBrace A = none) :
    format (A ++ '{' :: '}' :: B) v = A ++ v ++ B := by
  rw [format_found _ v A.length (findBrace_append A B hA)]
  have ht : (A ++ '{' :: '}' :: B).take A.length = A := List.take_left A _
  have hd : (A ++ '{' :: '}' :: B).drop (A.length + 2) = B := by
    have h1 : A ++ '{' :: '}' :: B = (A ++ ['{', '}']) ++ B := by simp
    rw [h1, List.drop_left' (show (A ++ ['{', '}']).length = A.length + 2 by simp)]
  rw [ht, hd]

/-- Claim C1: for every template of the form `A ++ "\x7b\x7d" ++ B` where `A`
and `B` contain no occurrence of the token, and every converted text `v`,
`format` returns `A ++ v ++ B`. -/
theorem format_single_placeholder (A B v : List Char)
    (hA : ∀ X Y : List Char, A ≠ X ++ '{' :: '}' :: Y)
    (hB : ∀ X Y : List Char, B ≠ X ++ '{' :: '}' :: Y) :
    format (A ++ '{' :: '}' :: B) v = A ++ v ++ B :=
  format_split A B v ((findBrace_eq_none_iff A).mpr hA)

/-- Witness for C1 at the spec scenario `format("\x7b\x7d%", 42) = "42%"`. -/
theorem format_single_placeholder_witness :
    format ['{', '}', '%'] ['4', '2'] = ['4', '2', '%'] :=
  format_single_placeholder [] ['%'] ['4', '2']
    ((findBrace_eq_none_iff []).mp rfl)
    ((findBrace_eq_none_iff ['%']).mp (by decide))

/-- Claim C2: on a template with two or more occurrences of the token, only
the first (leftmost) occurrence is replaced; the rest of the template after
it, including every subsequent occurrence, is kept unchanged. -/
theorem format_replaces_first_only (t v : List Char) (h : 2 ≤ countBrace t) :
    ∃ pos, findBrace t = some pos ∧
      t.take pos ++ '{' :: '}' :: t.drop (pos + 2) = t ∧
      findBrace (t.take pos) = none ∧
      format t v = t.take pos ++ v ++ t.drop (pos + 2) := by
  cases hf : findBrace t with
  | none =>
    have h0 := countBrace_eq_zero t hf
    omega
  | some pos =>
    obtain ⟨h1, h2⟩ := findBrace_spec t pos hf
    exact ⟨pos, rfl, h1, h2, format_found t v pos hf⟩

/-- Witness for C2 at the spec scenario `format("\x7b\x7d-\x7b\x7d", 5) = "5-\x7b\x7d"`. -/
theorem format_replaces_first_only_witness :
    2 ≤ countBrace ['{', '}', '-', '{', '}'] ∧
      (∃ pos, findBrace ['{', '}', '-', '{', '}'] = some pos ∧
        List.take pos ['{', '}', '-', '{', '}'] ++ '{' :: '}' ::
          List.drop (pos + 2) ['{', '}', '-', '{', '}'] =
            ['{', '}', '-', '{', '}'] ∧
        findBrace (List.take pos ['{', '}', '-', '{', '}']) = none ∧
        format ['{', '}', '-', '{', '}'] ['5'] =
          List.take pos ['{', '}', '-', '{', '}'] ++ ['5'] ++
            List.drop (pos + 2) ['{', '}', '-', '{', '}']) ∧
      format ['{', '}', '-', '{', '}'] ['5'] = ['5', '-', '{', '}'] :=
  ⟨by decide,
   format_replaces_first_only ['{', '}', '-', '{', '}'] ['5'] (by decide),
   by decide⟩

/-- Claim C3: on a template with no occurrence of the token, `format` appends
the converted text to the end of the template. -/
theorem format_no_placeholder_append (t v : List Char)
    (h : ∀ A B : List Char, t ≠ A ++ '{' :: '}' :: B) :
    format t v = t ++ v :=
  format_not_found t v ((findBrace_eq_none_iff t).mpr h)

/-- Witness for C3: `format("no", 7) = "no7"`. -/
theorem format_no_placeholder_append_witness :
    format ['n', 'o'] ['7'] = ['n', 'o', '7'] :=
  format_no_placeholder_append ['n', 'o'] ['7']
    ((findBrace_eq_none_iff ['n', 'o']).mp (by decide))

/-- Claim C4: the zero-argument overload returns the template unchanged,
for every template, with no substitution. -/
theorem format0_copy (t : List Char) : format0 t = t := rfl

/-- Claim C5: the result length is the template length minus 2 plus the text
length when the token occurs in the template, and the template length plus
the text length when it does not. -/
theorem format_length_invariant (t v : List Char) :
    ((∃ A B : List Char, t = A ++ '{' :: '}' :: B) →
      (format t v).length = t.length - 2 + v.length) ∧
    ((∀ A B : List Char, t ≠ A ++ '{' :: '}' :: B) →
      (format t v).length = t.length + v.length) := by
  constructor
  · intro hex
    cases hf : findBrace t with
    | none =>
      obtain ⟨A, B, hAB⟩ := hex
      exact absurd hAB ((findBrace_eq_none_iff t).mp hf A B)
    | some pos =>
      have hle := findBrace_le t pos hf
      rw [format_found t v pos hf]
      simp only [List.length_append, List.length_take, List.length_drop]
      omega
  · intro h
    rw [format_not_found t v ((findBrace_eq_none_iff t).mpr h),
      List.length_append]

/-- Witness for C5: both length branches at concrete inputs. -/
theorem format_length_invariant_witness :
    (format ['a', '{', '}'] ['4', '2']).length =
      ['a', '{', '}'].length - 2 + ['4', '2'].length ∧
    (format ['a', 'b'] ['4', '2']).length =
      ['a', 'b'].length + ['4', '2'].length :=
  ⟨(format_length_invariant ['a', '{', '}'] ['4', '2']).1
      ⟨['a'], [], by decide⟩,
   (format_length_invariant ['a', 'b'] ['4', '2']).2
      ((findBrace_eq_none_iff ['a', 'b']).mp (by decide))⟩

/-- Claim C6: both overloads are total: for every template and every converted
text there is a result, and no error outcome exists (the embedded operations
return plain strings, not `Option`/`Except`). -/
theorem format_total (t v : List Char) :
    (∃ r : List Char, format0 t = r) ∧ ∃ r : List Char, format t v = r :=
  ⟨⟨format0 t, rfl⟩, ⟨format t v, rfl⟩⟩

/-- Claim C7: the zero-argument overload is idempotent. -/
theorem format0_idempotent (t : List Char) :
    format0 (format0 t) = format0 t := rfl

/-- Claim C8: on the empty template the converted text is appended to
nothing, so the result is the converted text itself. -/
theorem format_empty_template (v : List Char) : format [] v = v := by
  rw [format_not_found [] v findBrace_nil, List.nil_append]

/-- Claim C9: the inserted text is placed verbatim and never rescanned: for a
template splitting as `A ++ "\x7b\x7d" ++ B` with `A` token-free, the result is
`A ++ v ++ B` even when `v` itself contains the token. -/
theorem format_inserts_verbatim (A B v : List Char)
    (hA : ∀ X Y : List Char, A ≠ X ++ '{' :: '}' :: Y) :
    format (A ++ '{' :: '}' :: B) v = A ++ v ++ B :=
  format_split A B v ((findBrace_eq_none_iff A).mpr hA)

/-- Witness for C9: substituting the token itself into `"\x7b\x7d"` returns
`"\x7b\x7d"`. -/
theorem format_inserts_verbatim_witness :
    format ['{', '}'] ['{', '}'] = ['{', '}'] :=
  format_inserts_verbatim [] [] ['{', '}']
    ((findBrace_eq_none_iff []).mp rfl)

/-- Claim C10: only the exact adjacent two-character sequence counts as the
placeholder: a template containing `'{'` or `'}'` but no adjacent pair gets
no substitution, and the converted text is appended. -/
theorem format_no_adjacent_pair (t v : List Char)
    (hmem : '{' ∈ t ∨ '}' ∈ t)
    (h : ∀ A B : List Char, t ≠ A ++ '{' :: '}' :: B) :
    format t v = t ++ v :=
  format_not_found t v ((findBrace_eq_none_iff t).mpr h)

/-- Witness for C10 at `format("a\x7bb\x7dc", 7) = "a\x7bb\x7dc7"`. -/
theorem format_no_adjacent_pair_witness :
    format ['a', '{', 'b', '}', 'c'] ['7'] = ['a', '{', 'b', '}', 'c', '7'] :=
  format_no_adjacent_pair ['a', '{', 'b', '}', 'c'] ['7']
    (Or.inl (by decide))
    ((findBrace_eq_none_iff ['a', '{', 'b', '}', 'c']).mp (by decide))

end StdFormatCompat
